import Mathlib

/-!
Verification of the STDF measurement-extraction pipeline.

The definitions below are a shallow embedding of the Python sources
(`extract_all_measurements.py`, `extract_all_measurements_plus_clickhouse_connect.py`,
`extract_measurements_pystdf.py`, `verify_ids_and_segments.py`) together with
spec-modelled components (record classifier, binary record reader) whose C++
sources are not part of the repository snapshot.

Strings from the Python code are modelled as Lean `String`s, manipulated
through their character lists so that every operation is structurally
recursive and computable.  Python floats are modelled as rationals via a
decimal-literal parser.
-/

namespace STDF

/-- The predicate `pat` is a leading segment of `text`, character by character.
Used to model Python substring search. -/
def leadMatch : List Char → List Char → Bool
  | _, [] => true
  | [], _ :: _ => false
  | t :: ts, p :: ps => p == t && leadMatch ts ps

/-- The pattern occurs somewhere in the text (models Python `pat in s`). -/
def hasSub : List Char → List Char → Bool
  | [], p => leadMatch [] p
  | t :: ts, p => leadMatch (t :: ts) p || hasSub ts p

/-- String-level substring test, models Python `pat in s`. -/
def strHasSub (s pat : String) : Bool := hasSub s.data pat.data

/-- Numeric value of a digit string, models Python `int` on a digit run. -/
def digitsVal (l : List Char) : Nat :=
  l.foldl (fun a c => 10 * a + (c.toNat - 48)) 0

/-- Match the regex `Pixel=R(\d+)C(\d+)` at the head of the character list,
returning `(row, col, matched length)` on success.  Both digit runs are
maximal, which coincides with the greedy semantics of `re` because a digit
run can never be extended past a non-digit. -/
def pixelTagParse (l : List Char) : Option (Nat × Nat × Nat) :=
  if leadMatch l ("Pixel=R".data) then
    let l1 := l.drop 7
    let d1 := l1.takeWhile Char.isDigit
    if d1.isEmpty then none
    else
      match l1.drop d1.length with
      | 'C' :: l3 =>
        let d2 := l3.takeWhile Char.isDigit
        if d2.isEmpty then none
        else some (digitsVal d1, digitsVal d2, 7 + d1.length + 1 + d2.length)
      | _ => none
  else none

/-- Leftmost search for `Pixel=R(\d+)C(\d+)`, models `re.search` in
`MeasurementExtractor._parse_pixel_coords`; returns `(row, col)`. -/
def searchPixel : List Char → Option (Nat × Nat)
  | [] => none
  | c :: cs =>
    match pixelTagParse (c :: cs) with
    | some (r, col, _) => some (r, col)
    | none => searchPixel cs

/-- Remove every occurrence of `;Pixel=R\d+C\d+` (models
`re.sub` number one in `MeasurementExtractor._clean_param_name`); the first
argument is recursion fuel, always instantiated with the list length, which
suffices because every step consumes at least one character. -/
def stripSemiAux : Nat → List Char → List Char
  | 0, l => l
  | _ + 1, [] => []
  | f + 1, c :: cs =>
    if c == ';' then
      match pixelTagParse cs with
      | some (_, _, n) => stripSemiAux f (cs.drop n)
      | none => c :: stripSemiAux f cs
    else c :: stripSemiAux f cs

/-- Remove a leading `Pixel=R\d+C\d+;` (models `re.sub` number two in
`MeasurementExtractor._clean_param_name`). -/
def stripLead (l : List Char) : List Char :=
  match pixelTagParse l with
  | some (_, _, n) =>
    match l.drop n with
    | ';' :: rest => rest
    | _ => l
  | none => l

/-- Models `MeasurementExtractor._clean_param_name`. -/
def cleanParamName (s : String) : String :=
  if s == "" then s
  else String.mk (stripLead (stripSemiAux s.data.length s.data))

/-- Strip surrounding whitespace, models Python `str.strip()`. -/
def trimChars (l : List Char) : List Char :=
  ((l.dropWhile Char.isWhitespace).reverse.dropWhile Char.isWhitespace).reverse

/-- Exponent part of a decimal literal: optional sign followed by a
nonempty digit run consuming the whole list. -/
def expVal : List Char → Option Int
  | [] => none
  | '+' :: ds => if !ds.isEmpty && ds.all Char.isDigit then some (digitsVal ds) else none
  | '-' :: ds => if !ds.isEmpty && ds.all Char.isDigit then some (-(digitsVal ds : Int)) else none
  | ds => if ds.all Char.isDigit then some (digitsVal ds) else none

/-- Unsigned decimal literal (digits, optional fraction, optional exponent),
which must consume the whole list, returned as a numerator/denominator pair;
models the decimal-literal fragment accepted by Python `float`. -/
def decParts (l : List Char) : Option (Nat × Nat) :=
  let ip := l.takeWhile Char.isDigit
  let r1 := l.drop ip.length
  let fr : Option (List Char × List Char) :=
    match r1 with
    | '.' :: rest => some (rest.takeWhile Char.isDigit, rest.drop (rest.takeWhile Char.isDigit).length)
    | _ => none
  let fp := match fr with | some q => q.1 | none => []
  let r2 := match fr with | some q => q.2 | none => r1
  if ip.length + fp.length = 0 then none
  else
    let m : Nat := digitsVal ip * 10 ^ fp.length + digitsVal fp
    let den : Nat := 10 ^ fp.length
    match r2 with
    | [] => some (m, den)
    | 'e' :: es =>
      (expVal es).map (fun e => if 0 ≤ e then (m * 10 ^ e.toNat, den) else (m, den * 10 ^ e.natAbs))
    | 'E' :: es =>
      (expVal es).map (fun e => if 0 ≤ e then (m * 10 ^ e.toNat, den) else (m, den * 10 ^ e.natAbs))
    | _ => none

/-- Models Python `float(s)` on plain finite decimal literals: surrounding
whitespace is ignored, an optional sign precedes the unsigned literal;
`none` models a `ValueError`.  This fragment serves the expansion-pipeline
claims, which only evaluate it on such literals; the full `float()`
behavior (inf/nan literals, numeric underscores, overflow to infinity) is
modelled by `pyFloatFull` below. -/
def pyFloat (s : String) : Option ℚ :=
  match trimChars s.data with
  | '+' :: rest => (decParts rest).map (fun p => mkRat p.1 p.2)
  | '-' :: rest => (decParts rest).map (fun p => mkRat (-(p.1 : Int)) p.2)
  | l => (decParts l).map (fun p => mkRat p.1 p.2)

/-- Models `MeasurementExtractor._safe_float` restricted to the finite
decimal fragment of `float()` (see `safeFloatFull` for the full model); the
argument `none` models Python `None`, and Python truthiness makes both
`None` and the empty string take the `0.0` branch. -/
def safeFloat : Option String → ℚ
  | none => 0
  | some s => if s == "" then 0 else (pyFloat s).getD 0

/-- Truncation toward zero, models Python `int()` applied to a float. -/
def pyTrunc (q : ℚ) : Int := q.num.tdiv (q.den : Int)

/-- Models `MeasurementExtractor._safe_int` restricted to the finite
decimal fragment of `float()`; the exception behavior on infinite floats is
modelled faithfully by `safeIntFull` below. -/
def safeInt : Option String → Int
  | none => 0
  | some s =>
    if s == "" then 0
    else
      match pyFloat s with
      | some q => pyTrunc q
      | none => 0

/-- Result of Python `float()`: a finite value (kept exact as a rational),
a signed infinity, or nan. -/
inductive PyFloatVal where
  | finite (q : ℚ)
  | inf (neg : Bool)
  | nan
deriving DecidableEq

/-- Collect a maximal run of ASCII decimal digits in which a single
underscore may appear only between two digits (Python's numeric-literal
underscore rule); returns the digits with underscores removed and the
unconsumed rest, leaving a trailing or doubled underscore unconsumed so the
whole-literal check rejects it. -/
def takeDigitsU : List Char → List Char × List Char
  | [] => ([], [])
  | c :: '_' :: c2 :: cs2 =>
    if c.isDigit then
      if c2.isDigit then
        let r := takeDigitsU (c2 :: cs2)
        (c :: r.1, r.2)
      else ([c], '_' :: c2 :: cs2)
    else ([], c :: '_' :: c2 :: cs2)
  | c :: cs =>
    if c.isDigit then
      let r := takeDigitsU cs
      (c :: r.1, r.2)
    else ([], c :: cs)

/-- Exponent part with optional sign and an underscored digit run, which
must consume the whole list. -/
def expValU : List Char → Option Int
  | '+' :: ds =>
    let r := takeDigitsU ds
    if !r.1.isEmpty && r.2.isEmpty then some (digitsVal r.1) else none
  | '-' :: ds =>
    let r := takeDigitsU ds
    if !r.1.isEmpty && r.2.isEmpty then some (-(digitsVal r.1 : Int)) else none
  | ds =>
    let r := takeDigitsU ds
    if !r.1.isEmpty && r.2.isEmpty then some ((digitsVal r.1 : Int)) else none

/-- Unsigned decimal literal with Python's underscore rule, which must
consume the whole list, as a numerator/denominator pair. -/
def decPartsU (l : List Char) : Option (Nat × Nat) :=
  let ipr := takeDigitsU l
  let fpr : List Char × List Char :=
    match ipr.2 with
    | '.' :: rest => takeDigitsU rest
    | _ => ([], ipr.2)
  let ip := ipr.1
  let fp := fpr.1
  if ip.length + fp.length = 0 then none
  else
    let m : Nat := digitsVal ip * 10 ^ fp.length + digitsVal fp
    let den : Nat := 10 ^ fp.length
    match fpr.2 with
    | [] => some (m, den)
    | 'e' :: es =>
      (expValU es).map (fun e => if 0 ≤ e then (m * 10 ^ e.toNat, den) else (m, den * 10 ^ e.natAbs))
    | 'E' :: es =>
      (expValU es).map (fun e => if 0 ≤ e then (m * 10 ^ e.toNat, den) else (m, den * 10 ^ e.natAbs))
    | _ => none

/-- An exact rational `m / den` of magnitude at least `2^1024 - 2^970`
rounds to infinity in IEEE-754 double precision (round to nearest, ties to
even), which is what Python `float()` produces on overflow. -/
def dblOverflow (m den : Nat) : Bool := den * (2 ^ 1024 - 2 ^ 970) ≤ m

/-- Models Python `float(s)` in full for ASCII input: surrounding
whitespace, an optional sign, the case-insensitive `inf`/`infinity`/`nan`
literals, decimal literals with the numeric underscore rule, and overflow
to infinity at the IEEE double threshold; finite values are kept exact as
rationals.  `none` models a `ValueError`. -/
def pyFloatFull (s : String) : Option PyFloatVal :=
  let l := trimChars s.data
  let sgd : Bool × List Char :=
    match l with
    | '+' :: r => (false, r)
    | '-' :: r => (true, r)
    | r => (false, r)
  let neg := sgd.1
  let low := sgd.2.map Char.toLower
  if low = "inf".data ∨ low = "infinity".data then some (PyFloatVal.inf neg)
  else if low = "nan".data then some PyFloatVal.nan
  else
    match decPartsU sgd.2 with
    | some p =>
      if dblOverflow p.1 p.2 then some (PyFloatVal.inf neg)
      else some (PyFloatVal.finite (if neg then mkRat (-(p.1 : Int)) p.2 else mkRat p.1 p.2))
    | none => none

/-- Models `MeasurementExtractor._safe_float` over the full float model:
falsy inputs give `0.0`; a `ValueError` from `float()` is caught giving
`0.0`; otherwise the parsed float, which may be an infinity or nan, is
returned unchanged. -/
def safeFloatFull : Option String → PyFloatVal
  | none => PyFloatVal.finite 0
  | some s => if s == "" then PyFloatVal.finite 0 else (pyFloatFull s).getD (PyFloatVal.finite 0)

/-- Models `MeasurementExtractor._safe_int`, that is `int(float(value))`
under `except (ValueError, TypeError)`: falsy inputs give `some 0`; a
`ValueError` from `float()` is caught giving `some 0`; `int` on nan raises
`ValueError`, also caught; but `int` on an infinite float raises
`OverflowError`, which the except clause does not catch — the uncaught
exception is modelled as `none`. -/
def safeIntFull : Option String → Option Int
  | none => some 0
  | some s =>
    if s == "" then some 0
    else
      match pyFloatFull s with
      | none => some 0
      | some (PyFloatVal.finite q) => some (pyTrunc q)
      | some (PyFloatVal.inf _) => none
      | some PyFloatVal.nan => some 0

/-- Split a character list on a separator, models Python `str.split(sep)`. -/
def splitChar (sep : Char) : List Char → List (List Char)
  | [] => [[]]
  | c :: cs =>
    let r := splitChar sep cs
    if c == sep then [] :: r
    else
      match r with
      | h :: t => (c :: h) :: t
      | [] => [[c]]

/-- Models `MeasurementExtractor._parse_test_values`. -/
def parseTestValues (testTxt : String) : List String :=
  if testTxt == "" then ["0.0"]
  else if testTxt.data.contains ',' then
    let values := ((splitChar ',' testTxt.data).map (fun l => String.mk (trimChars l))).filter (fun x => x != "")
    if values == [] then ["0.0"] else values
  else [testTxt]

/-- Models `MeasurementExtractor._is_pixel_test`. -/
def isPixelTest (alarmId testTxt : String) : Bool :=
  (alarmId != "" && strHasSub alarmId "Pixel=") || (testTxt != "" && strHasSub testTxt "Pixel=")

/-- Models `ParallelSTDFProcessor._is_pixel_test` from
`extract_all_measurements_plus_clickhouse_connect_parallel.py`, which also
accepts the lowercase marker and has no emptiness guards. -/
def parallelIsPixelTest (paramName testTxt : String) : Bool :=
  strHasSub paramName "Pixel=" || strHasSub testTxt "Pixel=" ||
    strHasSub paramName "pixel=" || strHasSub testTxt "pixel="

/-- Models `MeasurementExtractor._parse_pixel_coords`; the result is the
`(x, y)` pair of optional coordinates. -/
def parsePixelCoords (text : String) : Option Nat × Option Nat :=
  if text == "" || !strHasSub text "Pixel=" then (none, none)
  else
    match searchPixel text.data with
    | some (row, col) => (some col, some row)
    | none => (none, none)

/-- Models `MeasurementExtractor._extract_test_coordinates`. -/
def extractTestCoordinates (alarmId testTxt : String) (defaultX defaultY : Int) : Int × Int :=
  let p1 := parsePixelCoords alarmId
  let p2 := if p1.1.isNone && (testTxt != "") then parsePixelCoords testTxt else p1
  (match p2.1 with
   | some c => (c : Int)
   | none => defaultX,
   match p2.2 with
   | some r => (r : Int)
   | none => defaultY)

/-- Models `SimplePystdfExtractor._extract_test_coordinates` from
`extract_measurements_pystdf.py`, which returns the regex groups in source
order `(row, col)` rather than `(col, row)`. -/
def pystdfExtractTestCoordinates (paramName testTxt : String) (defaultX defaultY : Int) : Int × Int :=
  match searchPixel paramName.data with
  | some (r, c) => ((r : Int), (c : Int))
  | none =>
    match searchPixel testTxt.data with
    | some (r, c) => ((r : Int), (c : Int))
    | none => (defaultX, defaultY)

/-- The fields of a parsed test record (PTR/MPR/FTR/SBR/HBR) consumed by
`MeasurementExtractor._process_single_test`; every field arrives from the
C++ parser as a string. -/
structure TestRec where
  recordType : String
  alarmId : String
  testTxt : String
  testFlg : String
  result : String
  rtnRslt : String
deriving DecidableEq

/-- Device data extracted from one PRR record in
`MeasurementExtractor._extract_from_records`. -/
structure DeviceRec where
  deviceDmc : String
  defaultX : Int
  defaultY : Int
deriving DecidableEq

/-- One emitted measurement row, matching the six-field dict appended in
`MeasurementExtractor._process_single_test`. -/
structure Meas where
  paramName : String
  value : ℚ
  posX : Int
  posY : Int
  testFlg : String
  recordType : String
deriving DecidableEq

/-- The list of measurement values computed for one test record in
`MeasurementExtractor._process_single_test` (the MPR `RTN_RSLT` branches and
the PTR/FTR `TEST_TXT` branch with its per-token result fallback). -/
def measurementValues (t : TestRec) : List ℚ :=
  if t.recordType == "MPR" && t.rtnRslt != "" && t.rtnRslt != "[float_array]" then
    if t.rtnRslt.data.contains ',' then
      (parseTestValues t.rtnRslt).map (fun v => safeFloat (some v))
    else [safeFloat (some t.rtnRslt)]
  else
    (parseTestValues t.testTxt).map
      (fun v => if v != "" then safeFloat (some v) else safeFloat (some t.result))

/-- Models `MeasurementExtractor._process_single_test`: the pixel filter,
coordinate extraction, parameter-name cleaning and the per-value emission
loop for one (test record, device) pair. -/
def processSingleTest (t : TestRec) (d : DeviceRec) : List Meas :=
  if !isPixelTest t.alarmId t.testTxt then []
  else
    let xy := extractTestCoordinates t.alarmId t.testTxt d.defaultX d.defaultY
    let cpn := cleanParamName t.alarmId
    (measurementValues t).map (fun q => ⟨cpn, q, xy.1, xy.2, t.testFlg, t.recordType⟩)

/-- Models the cross-product loop of
`MeasurementExtractor._extract_from_records`: the outer loop runs once per
PRR device and the inner loop processes every test record for that device. -/
def extractFromRecords (devs : List DeviceRec) (tests : List TestRec) : List Meas :=
  devs.flatMap (fun d => tests.flatMap (fun t => processSingleTest t d))

/-- Segment assignment from `STDFProcessor.push_to_clickhouse` (and
`verify_ids_and_segments.py`): the tracker maps a duplicate key to the last
segment it was given; a fresh key gets 0, a repeat gets the tracked value
plus one.  The tracker dict is modelled as an association list whose most
recent binding shadows older ones. -/
def segOf {K : Type} [DecidableEq K] (tr : List (K × Nat)) (k : K) : Nat :=
  match tr.lookup k with
  | some prev => prev + 1
  | none => 0

def segAux {K : Type} [DecidableEq K] : List (K × Nat) → List K → List (K × Nat)
  | _, [] => []
  | tr, k :: ks => (k, segOf tr k) :: segAux ((k, segOf tr k) :: tr) ks

/-- Assign a segment to every measurement key in emission order, starting
from an empty tracker. -/
def assignSegments {K : Type} [DecidableEq K] (ms : List K) : List (K × Nat) :=
  segAux [] ms

/-- In-memory plus counter state of `STDFProcessor` identity resolution:
the entries list models `device_id_map` and `counter` models
`device_counter` (newest binding first). -/
structure IdState where
  entries : List (String × Nat)
  counter : Nat

/-- Models `STDFProcessor.get_device_id`: a memory hit returns the cached
id unchanged; a database hit caches the stored id and bumps the counter past
it; otherwise a fresh id equal to the counter is assigned and the counter is
incremented.  The external store is modelled as the function `db`. -/
def getDeviceId (db : String → Option Nat) (s : IdState) (name : String) : Nat × IdState :=
  match s.entries.lookup name with
  | some i => (i, s)
  | none =>
    match db name with
    | some w => (w, ⟨(name, w) :: s.entries, if s.counter ≤ w then w + 1 else s.counter⟩)
    | none => (s.counter, ⟨(name, s.counter) :: s.entries, s.counter + 1⟩)

/-- Resolve a list of names in order, threading the state (models the
per-name loops of `get_device_id` callers and of
`update_measurements_with_persistent_ids`). -/
def resolveAll (db : String → Option Nat) (s : IdState) : List String → List Nat × IdState
  | [] => ([], s)
  | n :: ns =>
    let r := getDeviceId db s n
    let rest := resolveAll db r.2 ns
    (r.1 :: rest.1, rest.2)

/-- Modelled from the spec: the logical record kinds of the record
classifier (`get_record_type` in the C++ `stdf_parser.cpp`, which is not
part of the repository snapshot). -/
inductive RecordKind where
  | PTR
  | MPR
  | FTR
  | HBR
  | SBR
  | PRR
  | MIR
  | Unknown
deriving DecidableEq

/-- Modelled from the spec: the fixed lookup table of the record classifier
mapping known `(type, subtype)` byte pairs to record kinds, per the STDF V4
specification pairs listed in the spec. -/
def kindTable : List ((Nat × Nat) × RecordKind) :=
  [((15, 10), RecordKind.PTR), ((15, 15), RecordKind.MPR), ((15, 20), RecordKind.FTR),
   ((1, 40), RecordKind.HBR), ((1, 50), RecordKind.SBR), ((5, 20), RecordKind.PRR),
   ((1, 10), RecordKind.MIR)]

/-- Modelled from the spec: `classify(type_byte, subtype_byte)` of the
record classifier; pairs outside the lookup table yield `Unknown` and are
not an error. -/
def classify (t s : Nat) : RecordKind :=
  (kindTable.lookup (t, s)).getD RecordKind.Unknown

/-- Modelled from the spec: per-file record processing at the classifier
boundary.  Every raw record `(type, subtype, payload)` is counted; only
records whose pair classifies to a known kind have their payload passed on
for decoding, and unknown records are skipped without error. -/
def processRecords (rs : List (Nat × Nat × List Nat)) : Nat × List (RecordKind × List Nat) :=
  (rs.length,
   rs.filterMap (fun r =>
     let k := classify r.1 r.2.1
     if k = RecordKind.Unknown then none else some (k, r.2.2)))

/-- Modelled from the spec: one raw record produced by the binary record
reader (the C++ reader is not part of the repository snapshot): 2-byte
little-endian length, 1-byte type, 1-byte subtype, payload, together with
the byte offset at which the record started. -/
structure RawRecord where
  typ : Nat
  sub : Nat
  payload : List Nat
  offset : Nat
deriving DecidableEq

/-- Modelled from the spec: fuel-indexed worker for the binary record
reader.  The fuel is always instantiated with the byte count, which
suffices because every step consumes at least four bytes.  An empty rest
is a clean end of stream; a nonempty rest shorter than a full record is the
truncated-file case, reported with the last successfully-read offset. -/
def readAux : List Nat → Nat → Nat → List RawRecord × Option Nat
  | [], _, _ => ([], none)
  | _ :: _, 0, off => ([], some off)
  | l0 :: l1 :: t :: s :: rest, f + 1, off =>
    let L := l0 + 256 * l1
    if L ≤ rest.length then
      let res := readAux (rest.drop L) f (off + 4 + L)
      ((⟨t, s, rest.take L, off⟩ : RawRecord) :: res.1, res.2)
    else ([], some off)
  | _ :: _, _ + 1, off => ([], some off)

/-- Modelled from the spec: the binary record reader over a byte stream,
returning the records read and `some o` when the stream ends inside a
record, where `o` is the offset just after the last complete record. -/
def readRecords (b : List Nat) (off : Nat) : List RawRecord × Option Nat :=
  readAux b b.length off

/-- Record content used to build a well-formed STDF stream for the reader
theorems. -/
structure SpecRecord where
  typ : Nat
  sub : Nat
  payload : List Nat
deriving DecidableEq

/-- Encode one record as its on-wire bytes: 2-byte little-endian length,
type byte, subtype byte, payload. -/
def encodeRecord (r : SpecRecord) : List Nat :=
  (r.payload.length % 256) :: (r.payload.length / 256) :: r.typ :: r.sub :: r.payload

/-- Encode a whole record sequence as a byte stream. -/
def encodeAll (rs : List SpecRecord) : List Nat :=
  rs.flatMap encodeRecord

/-- Total encoded size of a record sequence. -/
def totalSize (rs : List SpecRecord) : Nat :=
  (rs.map (fun r => 4 + r.payload.length)).sum

/-- The records of `rs` whose full header plus payload lie within the first
`n` bytes of the encoded stream. -/
def cutRecords : List SpecRecord → Nat → List SpecRecord
  | [], _ => []
  | r :: rest, n =>
    if 4 + r.payload.length ≤ n then r :: cutRecords rest (n - (4 + r.payload.length))
    else []

/-- Whether byte position `n` falls exactly on a record boundary of the
encoded stream of `rs`. -/
def isBoundary : List SpecRecord → Nat → Bool
  | _, 0 => true
  | [], _ + 1 => false
  | r :: rest, n =>
    if 4 + r.payload.length ≤ n then isBoundary rest (n - (4 + r.payload.length))
    else false

/-- Attach starting offsets to a record sequence, as the reader reports
them. -/
def withOffsets : List SpecRecord → Nat → List RawRecord
  | [], _ => []
  | r :: rest, off => ⟨r.typ, r.sub, r.payload, off⟩ :: withOffsets rest (off + 4 + r.payload.length)

/-! ## Basic lemmas about the extraction pipeline -/

lemma parseTestValues_length_pos (s : String) : 0 < (parseTestValues s).length := by
  unfold parseTestValues
  split
  · simp
  · split
    · cases h : ((splitChar ',' s.data).map (fun l => String.mk (trimChars l))).filter (fun x => x != "") with
      | nil => simp [h]
      | cons a t => simp [h]
    · simp

lemma measurementValues_length_pos (t : TestRec) : 0 < (measurementValues t).length := by
  unfold measurementValues
  split
  · split
    · simpa using parseTestValues_length_pos t.rtnRslt
    · simp
  · simpa using parseTestValues_length_pos t.testTxt

lemma processSingleTest_length (t : TestRec) (d : DeviceRec) :
    (processSingleTest t d).length =
      if isPixelTest t.alarmId t.testTxt then (measurementValues t).length else 0 := by
  unfold processSingleTest
  by_cases h : isPixelTest t.alarmId t.testTxt <;> simp [h]

lemma flatMap_tests_length (tests : List TestRec) (d : DeviceRec) :
    (tests.flatMap (fun t => processSingleTest t d)).length =
      ((tests.filter (fun t => isPixelTest t.alarmId t.testTxt)).map
        (fun t => (measurementValues t).length)).sum := by
  induction tests with
  | nil => simp
  | cons t ts ih =>
    by_cases h : isPixelTest t.alarmId t.testTxt <;>
      simp [List.flatMap_cons, List.filter_cons, h, processSingleTest_length, ih]

/-- C1: in the cross-product expansion of `_extract_from_records`, the total
number of measurement rows equals the number of PRR device records times the
sum, over the test records passing the pixel filter, of the lengths of their
parsed value lists. -/
theorem cross_product_row_count (devs : List DeviceRec) (tests : List TestRec) :
    (extractFromRecords devs tests).length =
      devs.length *
        ((tests.filter (fun t => isPixelTest t.alarmId t.testTxt)).map
          (fun t => (measurementValues t).length)).sum := by
  induction devs with
  | nil => simp [extractFromRecords]
  | cons d ds ih =>
    unfold extractFromRecords at ih ⊢
    simp only [List.flatMap_cons, List.length_append, ih, flatMap_tests_length,
      List.length_cons]
    ring

/-- C9: the per-record value parser never returns an empty list (an empty
`test_txt` and an all-blank comma list both give the placeholder `["0.0"]`),
so every (device, filter-passing test record) pair emits at least one
measurement row. -/
theorem filtered_test_emits_at_least_one_row :
    (∀ t d, isPixelTest t.alarmId t.testTxt = true → 1 ≤ (processSingleTest t d).length)
    ∧ parseTestValues "" = ["0.0"]
    ∧ parseTestValues " , ,  " = ["0.0"]
    ∧ ∀ txt, 1 ≤ (parseTestValues txt).length := by
  refine ⟨fun t d h => ?_, by decide, by decide, fun txt => parseTestValues_length_pos txt⟩
  rw [processSingleTest_length, if_pos h]
  exact measurementValues_length_pos t

/-- Witness for C9 at a concrete filter-passing test record. -/
theorem filtered_test_emits_at_least_one_row_witness :
    1 ≤ (processSingleTest ⟨"PTR", "Pixel=R1C2", "", "", "", ""⟩ ⟨"D", 0, 0⟩).length :=
  filtered_test_emits_at_least_one_row.1 ⟨"PTR", "Pixel=R1C2", "", "", "", ""⟩ ⟨"D", 0, 0⟩
    (by decide)

set_option maxRecDepth 8000 in
set_option exponentiation.threshold 1100 in
/-- C10 (code bug): `_safe_int` is not total: on `'inf'`, `'Infinity'`, or
any string whose float parse overflows to infinity such as `'1e999'`,
`int(float(value))` raises an `OverflowError` that the
`except (ValueError, TypeError)` clause does not catch, so the helper
raises instead of returning 0 and measurement expansion can abort;
`_safe_float` itself is total (it returns the infinity, and `10.0` on the
underscored literal `'1_0'`), and both helpers do return `0.0`/`0` on
`None`, the empty string, unparseable text and nan. -/
theorem safe_int_overflow_uncaught :
    safeIntFull (some "inf") = none
    ∧ safeIntFull (some "Infinity") = none
    ∧ safeIntFull (some "1e999") = none
    ∧ safeFloatFull (some "inf") = PyFloatVal.inf false
    ∧ safeFloatFull (some "-inf") = PyFloatVal.inf true
    ∧ safeFloatFull (some "1_0") = PyFloatVal.finite 10
    ∧ safeFloatFull (some "1e999") = PyFloatVal.inf false
    ∧ safeFloatFull (some "nan") = PyFloatVal.nan
    ∧ safeIntFull (some "nan") = some 0
    ∧ safeFloatFull (Option.none) = PyFloatVal.finite 0
    ∧ safeIntFull (Option.none) = some 0
    ∧ safeFloatFull (some "") = PyFloatVal.finite 0
    ∧ safeIntFull (some "") = some 0
    ∧ safeFloatFull (some "abc") = PyFloatVal.finite 0
    ∧ safeIntFull (some "abc") = some 0
    ∧ safeFloatFull (some "3.9") = PyFloatVal.finite (mkRat 39 10)
    ∧ safeIntFull (some "3.9") = some 3
    ∧ safeIntFull (some "-3.9") = some (-3) := by
  decide

/-- C2 (code bug): for a PTR with empty `test_txt` and `RESULT = 3.14` the
pipeline emits a single row whose value is `0`, not `3.14`: the placeholder
token `"0.0"` substituted by `_parse_test_values` is truthy, so the
written fallback to the scalar result field is dead code; likewise a token
that fails to parse as a float yields `0` rather than the result field. -/
theorem empty_testtxt_emits_placeholder_not_result :
    extractFromRecords [⟨"DEV1", 5, 7⟩] [⟨"PTR", "TEMP;Pixel=R1C2", "", "0", "3.14", ""⟩]
        = [⟨"TEMP", 0, 2, 1, "0", "PTR"⟩]
    ∧ (0 : ℚ) ≠ 3.14
    ∧ measurementValues ⟨"PTR", "TEMP;Pixel=R1C2", "abc", "0", "3.14", ""⟩ = [0]
    ∧ pyFloat "3.14" = some (mkRat 157 50)
    ∧ mkRat 157 50 = 3.14 :=
  ⟨by decide, by norm_num, by decide, by decide, by norm_num [Rat.mkRat_eq_div]⟩

lemma leadMatch_of_append (p q l : List Char) (h : leadMatch l (p ++ q) = true) :
    leadMatch l p = true := by
  induction p generalizing l with
  | nil => cases l <;> rfl
  | cons a ps ih =>
    cases l with
    | nil => simp [leadMatch] at h
    | cons b bs =>
      simp only [List.cons_append, leadMatch, Bool.and_eq_true] at h ⊢
      exact ⟨h.1, ih bs h.2⟩

lemma pixelTagParse_leadMatch (l : List Char) (v : Nat × Nat × Nat)
    (h : pixelTagParse l = some v) : leadMatch l ("Pixel=R".data) = true := by
  unfold pixelTagParse at h
  by_cases hm : leadMatch l ("Pixel=R".data) = true
  · exact hm
  · simp [hm] at h

lemma searchPixel_hasSub (l : List Char) (rc : Nat × Nat)
    (h : searchPixel l = some rc) : hasSub l ("Pixel=".data) = true := by
  induction l with
  | nil => simp [searchPixel] at h
  | cons c cs ih =>
    unfold searchPixel at h
    cases hp : pixelTagParse (c :: cs) with
    | some v =>
      have hlead : leadMatch (c :: cs) ("Pixel=".data) = true := by
        have := pixelTagParse_leadMatch (c :: cs) v hp
        have hd : ("Pixel=R".data) = ("Pixel=".data) ++ ['R'] := by decide
        rw [hd] at this
        exact leadMatch_of_append _ _ _ this
      simp [hasSub, hlead]
    | none =>
      rw [hp] at h
      simp only [hasSub, Bool.or_eq_true]
      exact Or.inr (ih h)

lemma strHasSub_of_searchPixel (s : String) (rc : Nat × Nat)
    (h : searchPixel s.data = some rc) : strHasSub s "Pixel=" = true :=
  searchPixel_hasSub s.data rc h

lemma searchPixel_ne_empty (s : String) (rc : Nat × Nat)
    (h : searchPixel s.data = some rc) : s ≠ "" := by
  intro he
  subst he
  simp [searchPixel] at h

lemma parsePixelCoords_of_searchPixel (s : String) (r c : Nat)
    (h : searchPixel s.data = some (r, c)) :
    parsePixelCoords s = (some c, some r) := by
  have h1 : (s == "") = false := by
    have := searchPixel_ne_empty s (r, c) h
    simpa using this
  have h2 : strHasSub s "Pixel=" = true := strHasSub_of_searchPixel s (r, c) h
  unfold parsePixelCoords
  rw [h1, h2]
  simp [h]

lemma parsePixelCoords_of_none (s : String) (h : searchPixel s.data = none) :
    parsePixelCoords s = (none, none) := by
  unfold parsePixelCoords
  split
  · rfl
  · rw [h]

/-- C4 (amended): in `extract_all_measurements.py` the `Pixel=R<row>C<col>`
marker is taken from `alarm_id` first, then from `test_txt`, mapping the row
to `pos_y` and the column to `pos_x`, with the device defaults when no
marker matches, and `"FOO;Pixel=R12C34"` cleans to `"FOO"`; the pystdf
comparison extractor, by contrast, assigns the row to `pos_x` (see the
counterexample). -/
theorem coordinate_extraction_amended :
    (∀ alarm txt dx dy r c, searchPixel alarm.data = some (r, c) →
        extractTestCoordinates alarm txt dx dy = ((c : Int), (r : Int)))
    ∧ (∀ alarm txt dx dy r c, searchPixel alarm.data = none → txt ≠ "" →
        searchPixel txt.data = some (r, c) →
        extractTestCoordinates alarm txt dx dy = ((c : Int), (r : Int)))
    ∧ (∀ alarm txt dx dy, searchPixel alarm.data = none → searchPixel txt.data = none →
        extractTestCoordinates alarm txt dx dy = (dx, dy))
    ∧ extractTestCoordinates "FOO;Pixel=R12C34" "" 0 0 = (34, 12)
    ∧ cleanParamName "FOO;Pixel=R12C34" = "FOO" := by
  refine ⟨?_, ?_, ?_, by decide, by decide⟩
  · intro alarm txt dx dy r c h
    unfold extractTestCoordinates
    rw [parsePixelCoords_of_searchPixel alarm r c h]
    simp
  · intro alarm txt dx dy r c ha htxt h
    have htxtb : (txt != "") = true := by simpa using htxt
    unfold extractTestCoordinates
    rw [parsePixelCoords_of_none alarm ha]
    simp only [Option.isNone_none, htxtb, Bool.and_self, if_true]
    rw [parsePixelCoords_of_searchPixel txt r c h]
  · intro alarm txt dx dy ha ht
    unfold extractTestCoordinates
    rw [parsePixelCoords_of_none alarm ha]
    by_cases hb : (txt != "") = true
    · simp only [Option.isNone_none, hb, Bool.and_self, if_true]
      rw [parsePixelCoords_of_none txt ht]
    · have hb2 : txt = "" := by simpa using hb
      subst hb2
      simp

/-- Witness for C4 applying the default-coordinates branch at a concrete
input. -/
theorem coordinate_extraction_amended_witness :
    extractTestCoordinates "A" "B" 1 2 = (1, 2) :=
  coordinate_extraction_amended.2.2.1 "A" "B" 1 2 (by decide) (by decide)

/-- C4 counterexample: the pystdf variant assigns the parsed row to `pos_x`
and the column to `pos_y`, contradicting the claimed row-to-Y mapping. -/
theorem pystdf_coordinate_swap_counterexample :
    pystdfExtractTestCoordinates "FOO;Pixel=R12C34" "" 5 7 = (12, 34)
    ∧ ((12 : Int), (34 : Int)) ≠ ((34 : Int), (12 : Int)) := by
  constructor
  · decide
  · decide

lemma isPixelTest_eq_substring (a b : String) :
    isPixelTest a b = (strHasSub a "Pixel=" || strHasSub b "Pixel=") := by
  have h1 : ∀ s : String, s ≠ "" → (s != "") = true := fun s hs => by simpa using hs
  have hemp : strHasSub "" "Pixel=" = false := by decide
  unfold isPixelTest
  by_cases ha : a = ""
  · by_cases hb : b = ""
    · subst ha; subst hb; decide
    · subst ha; simp [h1 b hb, hemp]
  · by_cases hb : b = ""
    · subst hb; simp [h1 a ha, hemp]
    · simp [h1 a ha, h1 b hb]

/-- C3 (amended): a test record contributes measurement rows if and only if
the case-sensitive substring `"Pixel="` occurs in its `alarm_id` or its
`test_txt`; the full `Pixel=R<digits>C<digits>` pattern is not required (see
the counterexample), and the parallel variant additionally accepts the
lowercase substring `"pixel="`. -/
theorem pixel_filter_is_substring_test :
    (∀ t d, processSingleTest t d ≠ [] ↔
        (strHasSub t.alarmId "Pixel=" || strHasSub t.testTxt "Pixel=") = true)
    ∧ parallelIsPixelTest "pixel=R1C2" "" = true
    ∧ isPixelTest "pixel=R1C2" "" = false := by
  refine ⟨fun t d => ?_, by decide, by decide⟩
  rw [← isPixelTest_eq_substring]
  constructor
  · intro hne
    by_contra h
    have hfalse : isPixelTest t.alarmId t.testTxt = false := by
      cases hv : isPixelTest t.alarmId t.testTxt
      · rfl
      · exact absurd hv h
    unfold processSingleTest at hne
    rw [hfalse] at hne
    simp at hne
  · intro h
    have := measurementValues_length_pos t
    unfold processSingleTest
    rw [h]
    simp only [Bool.not_true, Bool.false_eq_true, if_false]
    intro hempty
    rw [List.map_eq_nil_iff] at hempty
    rw [hempty] at this
    simp at this

/-- Witness for C3 at a record carrying only the bare substring marker. -/
theorem pixel_filter_is_substring_test_witness :
    processSingleTest ⟨"PTR", "Pixel=", "", "", "", ""⟩ ⟨"D", 5, 7⟩ ≠ [] :=
  (pixel_filter_is_substring_test.1 ⟨"PTR", "Pixel=", "", "", "", ""⟩ ⟨"D", 5, 7⟩).mpr
    (by decide)

/-! ## Segment assignment (C5) -/

lemma segOf_cons_self {K : Type} [DecidableEq K] (tr : List (K × Nat)) (k : K) (s : Nat) :
    segOf ((k, s) :: tr) k = s + 1 := by
  simp [segOf, List.lookup]

lemma segOf_cons_ne {K : Type} [DecidableEq K] (tr : List (K × Nat)) (k k0 : K) (s : Nat)
    (h : k ≠ k0) : segOf ((k0, s) :: tr) k = segOf tr k := by
  have hb : (k == k0) = false := by simpa using h
  simp [segOf, List.lookup, hb]

lemma segAux_filter {K : Type} [DecidableEq K] (tr : List (K × Nat)) (ks : List K) (k : K) :
    (segAux tr ks).filter (fun p => decide (p.1 = k)) =
      (List.range (ks.countP (fun x => decide (x = k)))).map (fun i => (k, i + segOf tr k)) := by
  induction ks generalizing tr with
  | nil => simp [segAux]
  | cons k0 ks ih =>
    unfold segAux
    rw [List.filter_cons]
    by_cases h : k0 = k
    · subst h
      rw [if_pos (by simp), ih ((k0, segOf tr k0) :: tr), segOf_cons_self,
        List.countP_cons_of_pos _ _ (by simp), List.range_succ_eq_map, List.map_cons,
        List.map_map]
      refine congrArg₂ List.cons (by simp) ?_
      refine List.map_congr_left fun i hi => ?_
      simp only [Function.comp_apply]
      congr 1
      omega
    · rw [if_neg (by simp [h]), ih ((k0, segOf tr k0) :: tr),
        segOf_cons_ne tr k k0 _ (fun he => h he.symm),
        List.countP_cons_of_neg _ _ (by simp [h])]

/-- C5: for any fixed key appearing `k` times in one file's output, the
segment values assigned by the duplicate tracker are exactly `0, ..., k-1`
in order of emission, and consequently every (key, segment) pair in the
output is unique. -/
theorem segment_values_are_initial_range {K : Type} [DecidableEq K] (ms : List K) (k : K) :
    ((assignSegments ms).filter (fun p => decide (p.1 = k))).map Prod.snd
      = List.range (ms.countP (fun x => decide (x = k)))
    ∧ (assignSegments ms).Nodup := by
  constructor
  · rw [assignSegments, segAux_filter]
    have h0 : segOf ([] : List (K × Nat)) k = 0 := rfl
    rw [h0, List.map_map]
    have hfun : (Prod.snd ∘ fun i => ((k, i + 0) : K × Nat)) = id := by
      funext i
      simp
    rw [hfun, List.map_id]
  · rw [List.nodup_iff_sublist]
    rintro ⟨k0, n0⟩ hsub
    have hchar := segAux_filter ([] : List (K × Nat)) ms k0
    have h0 : segOf ([] : List (K × Nat)) k0 = 0 := rfl
    rw [h0] at hchar
    have hsubf := hsub.filter (fun p => decide (p.1 = k0))
    rw [show ([((k0, n0) : K × Nat), (k0, n0)].filter (fun p => decide (p.1 = k0)))
        = [(k0, n0), (k0, n0)] from by simp] at hsubf
    unfold assignSegments at hsubf
    rw [hchar] at hsubf
    have hnd2 : ((List.range (ms.countP (fun x => decide (x = k0)))).map
        (fun i => ((k0, i + 0) : K × Nat))).Nodup := by
      refine List.Nodup.map ?_ (List.nodup_range _)
      intro a b hab
      simpa using hab
    exact List.nodup_iff_sublist.mp hnd2 _ hsubf

/-- Witness for C5 on a concrete measurement-key list of the tuple shape
used by `push_to_clickhouse`. -/
theorem segment_values_are_initial_range_witness :
    ((assignSegments [((1, 2, "0", "0", 0) : Nat × Nat × String × String × Nat),
        (1, 2, "0", "0", 0), (3, 4, "0", "0", 0), (1, 2, "0", "0", 0)]).filter
      (fun p => decide (p.1 = (1, 2, "0", "0", 0)))).map Prod.snd
      = List.range ([((1, 2, "0", "0", 0) : Nat × Nat × String × String × Nat),
          (1, 2, "0", "0", 0), (3, 4, "0", "0", 0),
          (1, 2, "0", "0", 0)].countP (fun x => decide (x = (1, 2, "0", "0", 0))))
    ∧ (assignSegments [((1, 2, "0", "0", 0) : Nat × Nat × String × String × Nat),
        (1, 2, "0", "0", 0), (3, 4, "0", "0", 0), (1, 2, "0", "0", 0)]).Nodup :=
  segment_values_are_initial_range _ _

/-! ## Identity resolution (C6) -/

/-- C6: identity resolution is stable and gapless: a second resolution of
the same name returns the same id with no state change to that binding; an
existing binding survives any later resolution; and resolving `N` distinct
never-seen names (memory and store misses) assigns the `N` consecutive ids
starting at the current counter, which stays strictly above every assigned
id. -/
theorem identity_resolution_stable :
    (∀ db s name, (getDeviceId db (getDeviceId db s name).2 name).1 = (getDeviceId db s name).1)
    ∧ (∀ db s name other i, s.entries.lookup name = some i →
        ((getDeviceId db s other).2).entries.lookup name = some i)
    ∧ ∀ db (s : IdState) (names : List String), names.Nodup →
        (∀ n ∈ names, s.entries.lookup n = none ∧ db n = none) →
        (resolveAll db s names).1 = (List.range names.length).map (fun i => i + s.counter)
        ∧ (resolveAll db s names).2.counter = s.counter + names.length
        ∧ ((∀ p ∈ s.entries, p.2 < s.counter) →
            ∀ p ∈ (resolveAll db s names).2.entries, p.2 < (resolveAll db s names).2.counter) := by
  refine ⟨?_, ?_, ?_⟩
  · intro db s name
    cases h : s.entries.lookup name with
    | some i => simp [getDeviceId, h]
    | none =>
      cases hdb : db name with
      | some w => simp [getDeviceId, h, hdb, List.lookup]
      | none => simp [getDeviceId, h, hdb, List.lookup]
  · intro db s name other i hname
    cases h : s.entries.lookup other with
    | some j => simp [getDeviceId, h, hname]
    | none =>
      have hne : (name == other) = false := by
        simp only [beq_eq_false_iff_ne, ne_eq]
        intro he
        rw [he, h] at hname
        exact Option.noConfusion hname
      cases hdb : db other with
      | some w => simp [getDeviceId, h, hdb, List.lookup, hne, hname]
      | none => simp [getDeviceId, h, hdb, List.lookup, hne, hname]
  · intro db s names
    induction names generalizing s with
    | nil => intro _ _; refine ⟨by simp [resolveAll], by simp [resolveAll], by simp [resolveAll]⟩
    | cons n ns ih =>
      intro hnd hfresh
      have hn := hfresh n (by simp)
      have hstep : getDeviceId db s n = (s.counter, ⟨(n, s.counter) :: s.entries, s.counter + 1⟩) := by
        simp [getDeviceId, hn.1, hn.2]
      have hfresh2 : ∀ m ∈ ns, ((n, s.counter) :: s.entries).lookup m = none ∧ db m = none := by
        intro m hm
        have hmne : (m == n) = false := by
          simp only [beq_eq_false_iff_ne, ne_eq]
          intro he
          exact (List.nodup_cons.mp hnd).1 (he ▸ hm)
        exact ⟨by simp [List.lookup, hmne, (hfresh m (by simp [hm])).1],
          (hfresh m (by simp [hm])).2⟩
      have ihr := ih ⟨(n, s.counter) :: s.entries, s.counter + 1⟩ (List.nodup_cons.mp hnd).2 hfresh2
      refine ⟨?_, ?_, ?_⟩
      · simp only [resolveAll, hstep]
        rw [ihr.1]
        simp only [List.length_cons, List.range_succ_eq_map, List.map_cons, List.map_map]
        refine congrArg₂ List.cons (by simp) ?_
        refine List.map_congr_left fun i hi => ?_
        simp only [Function.comp_apply]
        omega
      · simp only [resolveAll, hstep]
        rw [ihr.2.1]
        show s.counter + 1 + ns.length = s.counter + (n :: ns).length
        simp only [List.length_cons]
        omega
      · intro hinv
        simp only [resolveAll, hstep]
        refine ihr.2.2 ?_
        intro p hp
        rcases List.mem_cons.mp hp with h1 | h2
        · rw [h1]; exact Nat.lt_succ_self s.counter
        · exact Nat.lt_succ_of_lt (hinv p h2)

/-- Witness for C6 resolving three fresh names from the empty state. -/
theorem identity_resolution_stable_witness :
    (resolveAll (fun _ => none) ⟨[], 0⟩ ["a", "b", "c"]).1
        = (List.range (["a", "b", "c"] : List String).length).map (fun i => i + 0)
    ∧ (resolveAll (fun _ => none) ⟨[], 0⟩ ["a", "b", "c"]).2.counter = 0 + (3 : Nat)
    ∧ ((∀ p ∈ (⟨[], 0⟩ : IdState).entries, p.2 < 0) →
        ∀ p ∈ (resolveAll (fun _ => none) ⟨[], 0⟩ ["a", "b", "c"]).2.entries,
          p.2 < (resolveAll (fun _ => none) ⟨[], 0⟩ ["a", "b", "c"]).2.counter) :=
  identity_resolution_stable.2.2 (fun _ => none) ⟨[], 0⟩ ["a", "b", "c"] (by decide)
    (by intro n hn; exact ⟨rfl, rfl⟩)

/-- C3 counterexample: a record whose `alarm_id` is the bare string
`"Pixel="` contains no `Pixel=R<digits>C<digits>` marker, yet it passes the
filter and emits one row with the device default coordinates. -/
theorem pixel_filter_counterexample :
    (extractFromRecords [⟨"D", 5, 7⟩] [⟨"PTR", "Pixel=", "", "", "", ""⟩]).length = 1
    ∧ searchPixel ("Pixel=".data) = none
    ∧ (extractFromRecords [⟨"D", 5, 7⟩] [⟨"PTR", "Pixel=", "", "", "", ""⟩]).map
        (fun m => (m.posX, m.posY)) = [(5, 7)] := by
  refine ⟨by decide, by decide, by decide⟩

/-! ## Record classifier (C7) -/

/-- C7: the classifier lookup table maps (15,10) to PTR, (15,15) to MPR,
(15,20) to FTR, (1,40) to HBR, (1,50) to SBR, (5,20) to PRR and (1,10) to
MIR; every pair outside the table classifies to Unknown, every record is
counted regardless of kind, and no Unknown record reaches decoding (the
classifier is a total function, so no error is raised). -/
theorem classifier_table_and_unknown :
    classify 15 10 = RecordKind.PTR
    ∧ classify 15 15 = RecordKind.MPR
    ∧ classify 15 20 = RecordKind.FTR
    ∧ classify 1 40 = RecordKind.HBR
    ∧ classify 1 50 = RecordKind.SBR
    ∧ classify 5 20 = RecordKind.PRR
    ∧ classify 1 10 = RecordKind.MIR
    ∧ (∀ t s, ((t, s) ∉ kindTable.map Prod.fst) → classify t s = RecordKind.Unknown)
    ∧ (∀ rs, (processRecords rs).1 = rs.length)
    ∧ ∀ rs k pl, (k, pl) ∈ (processRecords rs).2 → k ≠ RecordKind.Unknown := by
  refine ⟨rfl, rfl, rfl, rfl, rfl, rfl, rfl, ?_, fun rs => rfl, ?_⟩
  · intro t s h
    simp only [kindTable, List.map_cons, List.map_nil, List.mem_cons, List.not_mem_nil,
      or_false, not_or] at h
    obtain ⟨h1, h2, h3, h4, h5, h6, h7⟩ := h
    have b1 : (((t, s) : Nat × Nat) == (15, 10)) = false := by simpa using h1
    have b2 : (((t, s) : Nat × Nat) == (15, 15)) = false := by simpa using h2
    have b3 : (((t, s) : Nat × Nat) == (15, 20)) = false := by simpa using h3
    have b4 : (((t, s) : Nat × Nat) == (1, 40)) = false := by simpa using h4
    have b5 : (((t, s) : Nat × Nat) == (1, 50)) = false := by simpa using h5
    have b6 : (((t, s) : Nat × Nat) == (5, 20)) = false := by simpa using h6
    have b7 : (((t, s) : Nat × Nat) == (1, 10)) = false := by simpa using h7
    simp [classify, kindTable, List.lookup, b1, b2, b3, b4, b5, b6, b7]
  · intro rs k pl hmem
    simp only [processRecords] at hmem
    rw [List.mem_filterMap] at hmem
    obtain ⟨a, ha, hfa⟩ := hmem
    by_cases hc : classify a.1 a.2.1 = RecordKind.Unknown
    · rw [if_pos hc] at hfa
      exact Option.noConfusion hfa
    · rw [if_neg hc] at hfa
      have hk : k = classify a.1 a.2.1 := (Prod.mk.injEq _ _ _ _ ▸ Option.some.injEq _ _ ▸ hfa).1.symm
      rw [hk]
      exact hc

/-- Witness for C7 classifying a pair outside the table. -/
theorem classifier_table_and_unknown_witness :
    classify 99 99 = RecordKind.Unknown :=
  classifier_table_and_unknown.2.2.2.2.2.2.2.1 99 99 (by decide)

/-! ## Binary record reader (C8) -/

lemma readAux_nil (f off : Nat) : readAux [] f off = ([], none) := by
  cases f <;> rfl

lemma readAux_congr (f : Nat) : ∀ (g : Nat) (b : List Nat) (off : Nat),
    b.length ≤ f → b.length ≤ g → readAux b f off = readAux b g off := by
  induction f with
  | zero =>
    intro g b off hf _
    have hb : b = [] := List.length_eq_zero.mp (Nat.le_zero.mp hf)
    subst hb
    rw [readAux_nil, readAux_nil]
  | succ f ih =>
    intro g b off hf hg
    cases b with
    | nil => rw [readAux_nil, readAux_nil]
    | cons c0 cs =>
      cases g with
      | zero => simp at hg
      | succ g =>
        rcases cs with _ | ⟨c1, _ | ⟨c2, _ | ⟨c3, rest⟩⟩⟩
        · rfl
        · rfl
        · rfl
        · show readAux (c0 :: c1 :: c2 :: c3 :: rest) (f + 1) off
            = readAux (c0 :: c1 :: c2 :: c3 :: rest) (g + 1) off
          simp only [readAux]
          by_cases hL : c0 + 256 * c1 ≤ rest.length
          · simp only [if_pos hL]
            rw [ih g (rest.drop (c0 + 256 * c1)) (off + 4 + (c0 + 256 * c1))
              (by simp only [List.length_cons] at hf; simp [List.length_drop]; omega)
              (by simp only [List.length_cons] at hg; simp [List.length_drop]; omega)]
          · simp only [if_neg hL]

lemma readRecords_cons4 (l0 l1 t s : Nat) (rest : List Nat) (off : Nat) :
    readRecords (l0 :: l1 :: t :: s :: rest) off =
      if l0 + 256 * l1 ≤ rest.length then
        ((⟨t, s, rest.take (l0 + 256 * l1), off⟩ : RawRecord) ::
            (readRecords (rest.drop (l0 + 256 * l1)) (off + 4 + (l0 + 256 * l1))).1,
         (readRecords (rest.drop (l0 + 256 * l1)) (off + 4 + (l0 + 256 * l1))).2)
      else ([], some off) := by
  unfold readRecords
  simp only [List.length_cons, readAux]
  by_cases hL : l0 + 256 * l1 ≤ rest.length
  · simp only [if_pos hL]
    rw [readAux_congr (rest.length + 1 + 1 + 1) ((rest.drop (l0 + 256 * l1)).length)
      (rest.drop (l0 + 256 * l1)) (off + 4 + (l0 + 256 * l1))
      (by simp [List.length_drop]; omega) (le_refl _)]
  · simp only [if_neg hL]

lemma readRecords_short (b : List Nat) (off : Nat) (h1 : b ≠ []) (h4 : b.length < 4) :
    readRecords b off = ([], some off) := by
  rcases b with _ | ⟨a, _ | ⟨a1, _ | ⟨a2, _ | ⟨a3, r⟩⟩⟩⟩
  · exact absurd rfl h1
  · rfl
  · rfl
  · rfl
  · simp only [List.length_cons] at h4
    omega

lemma encodeAll_cons (r : SpecRecord) (rs : List SpecRecord) :
    encodeAll (r :: rs) = (r.payload.length % 256) :: (r.payload.length / 256) :: r.typ ::
      r.sub :: (r.payload ++ encodeAll rs) := by
  simp [encodeAll, encodeRecord]

lemma totalSize_cons (r : SpecRecord) (rs : List SpecRecord) :
    totalSize (r :: rs) = 4 + r.payload.length + totalSize rs := by
  simp [totalSize]

lemma withOffsets_cons (r : SpecRecord) (rs : List SpecRecord) (off : Nat) :
    withOffsets (r :: rs) off
      = (⟨r.typ, r.sub, r.payload, off⟩ : RawRecord) :: withOffsets rs (off + 4 + r.payload.length) :=
  rfl

/-- C8 (amended): reading any prefix of a well-formed encoded stream yields
exactly the records whose full header plus payload lie before the truncation
point (never a partial record), each with its correct starting offset, and
reports the truncation error carrying the offset of the end of the last
complete record exactly when the truncation point falls strictly inside a
record; a cut on a record boundary is a clean end of stream. -/
theorem reader_truncation_safety (rs : List SpecRecord) : ∀ (n off : Nat),
    (∀ r ∈ rs, r.payload.length < 65536) → n ≤ totalSize rs →
    readRecords ((encodeAll rs).take n) off
      = (withOffsets (cutRecords rs n) off,
         if isBoundary rs n then none else some (off + totalSize (cutRecords rs n))) := by
  induction rs with
  | nil =>
    intro n off _ hn
    have hn0 : n = 0 := by simpa [totalSize] using hn
    subst hn0
    simp [encodeAll, readRecords, readAux_nil, cutRecords, isBoundary, withOffsets, totalSize]
  | cons r rest ih =>
    intro n off hpay hn
    rcases Nat.eq_zero_or_pos n with hn0 | hpos
    · subst hn0
      have hcut : cutRecords (r :: rest) 0 = [] := by
        unfold cutRecords
        rw [if_neg (by omega)]
      simp [readRecords, readAux_nil, hcut, isBoundary, withOffsets, totalSize]
    · have hr : r.payload.length < 65536 := hpay r (by simp)
      have hL : r.payload.length % 256 + 256 * (r.payload.length / 256) = r.payload.length :=
        Nat.mod_add_div _ _
      rw [encodeAll_cons]
      rw [totalSize_cons] at hn
      by_cases h4 : 4 ≤ n
      · obtain ⟨m, rfl⟩ : ∃ m, n = m + 4 := ⟨n - 4, by omega⟩
        rw [show m + 4 = m + 1 + 1 + 1 + 1 from rfl]
        simp only [List.take_succ_cons]
        rw [readRecords_cons4, hL]
        by_cases hfit : 4 + r.payload.length ≤ m + 4
        · have hlen : r.payload.length ≤ m := by omega
          rw [List.take_append_eq_append_take, List.take_of_length_le hlen]
          have hcondlen : r.payload.length ≤ (r.payload ++ ((encodeAll rest).take (m - r.payload.length))).length := by
            simp
          rw [if_pos hcondlen]
          rw [List.take_left' rfl, List.drop_left' rfl]
          have ihr := ih (m - r.payload.length) (off + 4 + r.payload.length)
            (fun q hq => hpay q (by simp [hq])) (by omega)
          have ih1 : (readRecords ((encodeAll rest).take (m - r.payload.length))
                (off + 4 + r.payload.length)).1
              = withOffsets (cutRecords rest (m - r.payload.length))
                (off + 4 + r.payload.length) := by
            rw [ihr]
          have ih2 : (readRecords ((encodeAll rest).take (m - r.payload.length))
                (off + 4 + r.payload.length)).2
              = (if isBoundary rest (m - r.payload.length) then none
                 else some (off + 4 + r.payload.length
                   + totalSize (cutRecords rest (m - r.payload.length)))) := by
            rw [ihr]
          rw [ih1, ih2]
          have hcut : cutRecords (r :: rest) (m + 4)
              = r :: cutRecords rest (m - r.payload.length) := by
            show (if 4 + r.payload.length ≤ m + 4 then
                r :: cutRecords rest (m + 4 - (4 + r.payload.length)) else []) = _
            rw [if_pos (by omega),
              show m + 4 - (4 + r.payload.length) = m - r.payload.length from by omega]
          have hbound : isBoundary (r :: rest) (m + 4)
              = isBoundary rest (m - r.payload.length) := by
            show (if 4 + r.payload.length ≤ m + 4 then
                isBoundary rest (m + 4 - (4 + r.payload.length)) else false)
              = isBoundary rest (m - r.payload.length)
            rw [if_pos (by omega),
              show m + 4 - (4 + r.payload.length) = m - r.payload.length from by omega]
          rw [hcut, hbound, withOffsets_cons, totalSize_cons]
          refine Prod.ext_iff.mpr ⟨rfl, ?_⟩
          show (if isBoundary rest (m - r.payload.length) then none
              else some (off + 4 + r.payload.length
                + totalSize (cutRecords rest (m - r.payload.length)))) = _
          split
          · rfl
          · congr 1
            omega
        · have hlt : m < r.payload.length := by omega
          rw [List.take_append_of_le_length (by omega)]
          rw [if_neg (by rw [List.length_take]; omega)]
          have hcut : cutRecords (r :: rest) (m + 4) = [] := by
            unfold cutRecords
            rw [if_neg (by omega)]
          have hbound : isBoundary (r :: rest) (m + 4) = false := by
            show (if 4 + r.payload.length ≤ m + 4 then
                isBoundary rest (m + 4 - (4 + r.payload.length)) else false) = false
            rw [if_neg (by omega)]
          rw [hcut, hbound]
          simp [withOffsets, totalSize]
      · have h3 : n ≤ 3 := by omega
        rw [readRecords_short _ _ ?_ ?_]
        · have hcut : cutRecords (r :: rest) n = [] := by
            unfold cutRecords
            rw [if_neg (by omega)]
          have hbound : isBoundary (r :: rest) n = false := by
            obtain ⟨n0, rfl⟩ : ∃ n0, n = n0 + 1 := ⟨n - 1, by omega⟩
            show (if 4 + r.payload.length ≤ n0 + 1 then
                isBoundary rest (n0 + 1 - (4 + r.payload.length)) else false) = false
            rw [if_neg (by omega)]
          rw [hcut, hbound]
          simp [withOffsets, totalSize]
        · obtain ⟨n0, rfl⟩ : ∃ n0, n = n0 + 1 := ⟨n - 1, by omega⟩
          simp [List.take_succ_cons]
        · rw [List.length_take]
          omega

/-- Witness for C8 truncating a two-record stream strictly inside the second
record. -/
theorem reader_truncation_safety_witness :
    readRecords ((encodeAll [⟨1, 10, [7]⟩, ⟨5, 20, []⟩]).take 7) 0
      = (withOffsets (cutRecords [⟨1, 10, [7]⟩, ⟨5, 20, []⟩] 7) 0,
         if isBoundary [⟨1, 10, [7]⟩, ⟨5, 20, []⟩] 7 then none
         else some (0 + totalSize (cutRecords [⟨1, 10, [7]⟩, ⟨5, 20, []⟩] 7))) :=
  reader_truncation_safety [⟨1, 10, [7]⟩, ⟨5, 20, []⟩] 7 0 (by decide) (by decide)

/-- C8 counterexample: truncating the encoding of two empty-payload records
at offset 4 (the boundary between them) makes the reader stop cleanly with
no truncation error, although bytes were cut away; the error is reported
only when the cut falls strictly inside a record. -/
theorem reader_boundary_no_error_counterexample :
    (readRecords ((encodeAll [⟨1, 10, []⟩, ⟨5, 20, []⟩]).take 4) 0).2 = none
    ∧ ((encodeAll [⟨1, 10, []⟩, ⟨5, 20, []⟩]).take 4).length
        < (encodeAll [⟨1, 10, []⟩, ⟨5, 20, []⟩]).length
    ∧ (readRecords ((encodeAll [⟨1, 10, []⟩, ⟨5, 20, []⟩]).take 4) 0).1
        = [⟨1, 10, [], 0⟩] := by
  refine ⟨by decide, by decide, by decide⟩

end STDF
